import Mathlib

/-!
Verification of the doxy2swig documentation converter (src/tools/doxy2swig.py).

The development shallowly embeds the parts of the converter that the
specification's claims are about:

* the `DocEntry` record and the extraction state (`self.content` plus the
  active-field cursor `self.curField`),
* text accumulation (`parse_Text` / `add_text`),
* the tag handlers of the tree dispatcher that are pure tree-walking code,
* `post_process` (deduplication, empty-description fill, CPPONLY marking,
  destructor check, sort),
* the overload-name generator `latexName`,
* the Usage-initialization fragment of `do_memberdef`.

Machine strings are modelled as Lean `String`s (lists of characters);
Python exceptions (IndexError, KeyError, failed assert) are modelled as
`Option`/`Except` failures; `sys.exit(c)` is modelled as `Except.error c`.
-/

set_option maxRecDepth 4000

namespace Doxy2swig

/-- Characters matched by the Python regex class backslash-s, used by
space_re in parse_Text. -/
def pyIsSpace (c : Char) : Bool :=
  c = ' ' || c = '\t' || c = '\n' || c = '\x0b' || c = '\x0c' || c = '\r'

/-- The test performed by parse_Text: space_re matches at the start and the
match covers the whole string, i.e. the text is nonempty and consists of
whitespace only.  Such text is discarded; everything else is appended. -/
def pySpaceOnly (s : String) : Bool :=
  !s.data.isEmpty && s.data.all pyIsSpace

/-- Python substring membership, needle in hay, on character lists. -/
def strIn (needle : List Char) : List Char → Bool
  | [] => needle.isEmpty
  | c :: cs => needle.isPrefixOf (c :: cs) || strIn needle cs

/-- Python substring membership on strings (the in operator). -/
def pyInStr (needle hay : String) : Bool :=
  strIn needle.data hay.data

/-- An {Name, Description} record of an entry's Arguments list. -/
structure DocArg where
  Name : String
  Description : String
deriving DecidableEq, Repr

/-- One entry of self.content.  The source stores entries as dictionaries;
keys that a handler may or may not have set are modelled as `Option` fields
(`none` = key absent).  `ExampleFile` can also be set to Python None, hence
the nested option. -/
structure DocEntry where
  Name : String
  type : Option String := none
  Description : Option String := none
  Details : Option String := none
  Usage : Option String := none
  Arguments : Option (List DocArg) := none
  Examples : Option String := none
  ExampleFile : Option (Option String) := none
  cppArgs : Option String := none
  warning : Option String := none
  see : Option String := none
  note : Option String := none
  ret : Option String := none
  ignore : Option Bool := none
deriving DecidableEq, Repr

/-- The myhash helper of post_process: the entry's Name with Description and
Details appended when those keys are present. -/
def myhash (e : DocEntry) : String :=
  e.Name ++ e.Description.getD "" ++ e.Details.getD ""

/-- The duplicate-removal list comprehension of post_process with its growing
seen list: an entry is kept iff its hash is not in seen, and a kept entry's
hash is appended to seen. -/
def dedupAux (seen : List String) : List DocEntry → List DocEntry
  | [] => []
  | e :: rest =>
    if myhash e ∈ seen then dedupAux seen rest
    else e :: dedupAux (seen ++ [myhash e]) rest

/-- The deduplication step of post_process, starting from an empty seen
list. -/
def dedup (l : List DocEntry) : List DocEntry := dedupAux [] l

/-- Whether the entry has a Description key with a nonempty value. -/
def hasNonEmptyDesc (e : DocEntry) : Bool :=
  match e.Description with
  | some d => d != ""
  | none => false

/-- Whether the entry has a Details key with a nonempty value. -/
def hasNonEmptyDetails (e : DocEntry) : Bool :=
  match e.Details with
  | some d => d != ""
  | none => false

/-- The empty-description loop of post_process, with the condition exactly as
written in the source: not (has Description and it is nonempty) or (has
Details and it is nonempty).  In Python the not binds only to the first
parenthesized conjunct, so the branch also fires for every entry whose
Details is nonempty; the unused helper notEmpty defined just above this loop
in the source computes the un-negated disjunction instead. -/
def fillEmptyDesc (e : DocEntry) : DocEntry :=
  if !hasNonEmptyDesc e || hasNonEmptyDetails e then
    { e with Description := some e.Name }
  else e

/-- The CPPONLY-marking loop of post_process: ignore is set to true iff the
marker occurs in the entry's Description or Details. -/
def markIgnore (e : DocEntry) : DocEntry :=
  if (match e.Description with | some d => pyInStr "CPPONLY" d | none => false)
     || (match e.Details with | some d => pyInStr "CPPONLY" d | none => false) then
    { e with ignore := some true }
  else
    { e with ignore := some false }

/-- The comparison function passed to content.sort: the Python boolean
x.Name > y.Name, which as a Python 2 cmp value converts to the integers 1
and 0.  It is never negative. -/
def pyNameCmp (x y : DocEntry) : Int :=
  if y.Name < x.Name then 1 else 0

/-- CPython list.sort with a cmp function is a stable sort with respect to
the strict order lt a b = (cmp a b < 0): timsort consults the comparison
exclusively through that is-less-than test.  A stable sort places a before b
exactly when not (lt b a), which is `mergeSort` with le a b =
not (cmp b a < 0).  When cmp never returns a negative value the test never
fires, le is constantly true, and the sort leaves the list unchanged, which
is also what timsort does in that case (every run is detected as
non-descending and merging compares nothing). -/
def pySortByCmp (cmp : DocEntry → DocEntry → Int) (l : List DocEntry) : List DocEntry :=
  l.mergeSort (fun a b => !(decide (cmp b a < 0)))

/-- post_process: deduplication, empty-description fill, CPPONLY marking,
the destructor check (sys.exit(1) modelled as Except.error 1), then the
sort.  An error result models a run that aborts inside post_process; since
main calls post_process before the three write calls, an error means no
output file is written or modified. -/
def postProcess (content : List DocEntry) : Except Nat (List DocEntry) :=
  let c1 := dedup content
  let c2 := c1.map fillEmptyDesc
  let c3 := c2.map markIgnore
  if c3.any (fun e => (e.ignore == some true) && pyInStr "~" e.Name) then
    Except.error 1
  else
    Except.ok (pySortByCmp pyNameCmp c3)

/-- Projection of an Except value to its ok payload. -/
def okVal? {ε α : Type} : Except ε α → Option α
  | Except.error _ => none
  | Except.ok a => some a

/-- Projection of an Except value to its error payload. -/
def errCode? {ε α : Type} : Except ε α → Option ε
  | Except.error c => some c
  | Except.ok _ => none

/-! ### Extraction state and text accumulation -/

/-- The extraction state: the growing entry list self.content and the
active-field cursor self.curField (initially the empty string). -/
structure ParseState where
  content : List DocEntry
  curField : String
deriving DecidableEq, Repr

/-- Reading entry[f] for the string-valued keys the converter uses; none
models a KeyError (key never set, or an unknown active field). -/
def getTextField (e : DocEntry) (f : String) : Option String :=
  if f = "Name" then some e.Name
  else if f = "type" then e.type
  else if f = "Description" then e.Description
  else if f = "Details" then e.Details
  else if f = "Usage" then e.Usage
  else if f = "Examples" then e.Examples
  else if f = "cppArgs" then e.cppArgs
  else if f = "warning" then e.warning
  else if f = "see" then e.see
  else if f = "note" then e.note
  else if f = "return" then e.ret
  else none

/-- Writing entry[f] = v for the same string-valued keys; assignment to a
dictionary cannot fail, unknown fields are outside the model and leave the
entry unchanged. -/
def setTextField (e : DocEntry) (f : String) (v : String) : DocEntry :=
  if f = "Name" then { e with Name := v }
  else if f = "type" then { e with type := some v }
  else if f = "Description" then { e with Description := some v }
  else if f = "Details" then { e with Details := some v }
  else if f = "Usage" then { e with Usage := some v }
  else if f = "Examples" then { e with Examples := some v }
  else if f = "cppArgs" then { e with cppArgs := some v }
  else if f = "warning" then { e with warning := some v }
  else if f = "see" then { e with see := some v }
  else if f = "note" then { e with note := some v }
  else if f = "return" then { e with ret := some v }
  else e

/-- add_text: append value to the active field of the last entry
(self.content[-1]); when the active field is Arguments, to the Description
of the last argument record.  Indexing [-1] into an empty list (IndexError)
and reading a missing key (KeyError) raise in the source and are modelled as
none. -/
def addText (st : ParseState) (value : String) : Option ParseState :=
  match st.content.getLast? with
  | none => none
  | some e =>
    if st.curField = "Arguments" then
      match e.Arguments with
      | none => none
      | some args =>
        match args.getLast? with
        | none => none
        | some a =>
          let a2 := { a with Description := a.Description ++ value }
          let e2 := { e with Arguments := some (args.dropLast ++ [a2]) }
          some { st with content := st.content.dropLast ++ [e2] }
    else
      match getTextField e st.curField with
      | none => none
      | some s =>
        let e2 := setTextField e st.curField (s ++ value)
        some { st with content := st.content.dropLast ++ [e2] }

/-- parse_Text: text that is entirely whitespace is discarded, anything else
is appended to the active field via add_text. -/
def parseText (st : ParseState) (txt : String) : Option ParseState :=
  if pySpaceOnly txt then some st else addText st txt

/-! ### The input tree and the dispatcher -/

/-- An element of the input tree: a text node or an element with a tag name,
attributes and children in document order. -/
inductive Node where
  | text (data : String)
  | elem (tagName : String) (attrs : List (String × String)) (children : List Node)
deriving Repr

/-- node.attributes[key].value; none models the KeyError for a missing
attribute. -/
def getAttr (attrs : List (String × String)) (key : String) : Option String :=
  (attrs.find? (fun kv => kv.fst = key)).map Prod.snd

/-- The self.ignores tuple: tags dispatched to no handler at all. -/
def ignoreTags : List String :=
  ["inheritancegraph", "param", "listofallmembers", "innerclass", "name",
   "declname", "incdepgraph", "invincdepgraph", "programlisting", "type",
   "references", "referencedby", "location", "collaborationgraph",
   "reimplements", "reimplementedby", "derivedcompoundref",
   "basecompoundref", "header", "includes"]

/-- Tags handled by space_parse: a single space is appended, then the
children are visited. -/
def spaceParseTags : List String :=
  ["ref", "emphasis", "bold", "computeroutput", "formula"]

/-- Python str.strip(): leading and trailing whitespace removed. -/
def pyStrip (s : String) : String :=
  String.mk (((s.data.dropWhile pyIsSpace).reverse.dropWhile pyIsSpace).reverse)

/-- node.firstChild.data for handlers that read the text of their first
child; none models the attribute error when the node has no text first
child. -/
def headTextData : List Node → Option String
  | Node.text d :: _ => some d
  | _ => none

mutual

/-- The dispatcher parse / parse_Element together with the pure tag
handlers.  Handlers whose behavior depends on file input/output or on
ancestor links of the DOM node (compounddef, memberdef, xrefsect,
argsstring, doxygenindex) are outside this model and map to none, so a
theorem conditioned on a some result never relies on their behavior; the
Usage-initialization fragment of memberdef is modelled separately as
memberdefEntry.  All other tags reproduce the source handlers:

* tags in self.ignores do nothing;
* space_parse tags append a space and recurse;
* compoundname appends a fresh class entry named by its text child;
* parameterlist activates the Arguments field and resets the argument list
  (the source tests node.hasChildNodes, a bound method and hence always
  truthy, so this happens for childless nodes too), then recurses;
* para recurses;
* parametername asserts the active field is Arguments (a failed assert
  raises, modelled as none) and appends a fresh argument record;
* briefdescription / detaileddescription activate Description / Details,
  reset the field to the empty string and recurse;
* simplesect: kinds warning/see/note/return activate and reset the
  like-named field and recurse; every other kind, including date, rcs and
  version (whose suppression branch is a bare pass that falls through),
  recurses generically; afterwards the handler unconditionally sets the
  active field to Details and resets the last entry's Details to the empty
  string;
* sectiondef recurses only for kinds public-func, func and user-defined;
* member recurses only for kind function with a refid starting with
  namespace;
* any unknown tag falls back to the generic child visit. -/
def parseNode (st : ParseState) : Node → Option ParseState
  | Node.text d => parseText st d
  | Node.elem tag attrs children =>
    if tag ∈ ignoreTags then some st
    else if tag ∈ spaceParseTags then
      (addText st " ").bind (fun st1 => parseNodes st1 children)
    else if tag = "compoundname" then
      (headTextData children).bind (fun d =>
        let e2 : DocEntry := { Name := d, type := some "class" }
        some { st with content := st.content ++ [e2] })
    else if tag = "parameterlist" then
      (st.content.getLast?).bind (fun e =>
        let e2 := { e with Arguments := some [] }
        parseNodes { st with curField := "Arguments",
                             content := st.content.dropLast ++ [e2] } children)
    else if tag = "para" then parseNodes st children
    else if tag = "parametername" then
      (headTextData children).bind (fun d =>
        if st.curField = "Arguments" then
          (st.content.getLast?).bind (fun e =>
            (e.Arguments).bind (fun args =>
              let a2 : DocArg := { Name := pyStrip d, Description := "" }
              let e2 := { e with Arguments := some (args ++ [a2]) }
              some { st with content := st.content.dropLast ++ [e2] }))
        else none)
    else if tag = "detaileddescription" then
      (st.content.getLast?).bind (fun e =>
        let e2 := { e with Details := some "" }
        parseNodes { st with curField := "Details",
                             content := st.content.dropLast ++ [e2] } children)
    else if tag = "briefdescription" then
      (st.content.getLast?).bind (fun e =>
        let e2 := { e with Description := some "" }
        parseNodes { st with curField := "Description",
                             content := st.content.dropLast ++ [e2] } children)
    else if tag = "simplesect" then
      (getAttr attrs "kind").bind (fun kind =>
        (if kind = "warning" ∨ kind = "see" ∨ kind = "note" ∨ kind = "return" then
           (st.content.getLast?).bind (fun e =>
             let e2 := setTextField e kind ""
             parseNodes { st with curField := kind,
                                  content := st.content.dropLast ++ [e2] } children)
         else
           parseNodes st children).bind (fun st2 =>
          (st2.content.getLast?).bind (fun e2 =>
            let e3 := { e2 with Details := some "" }
            some { st2 with curField := "Details",
                            content := st2.content.dropLast ++ [e3] })))
    else if tag = "sectiondef" then
      (getAttr attrs "kind").bind (fun kind =>
        if kind = "public-func" ∨ kind = "func" ∨ kind = "user-defined" then
          parseNodes st children
        else some st)
    else if tag = "member" then
      (getAttr attrs "kind").bind (fun kind =>
        (getAttr attrs "refid").bind (fun refid =>
          if kind = "function" ∧ refid.data.take 9 = "namespace".data then
            parseNodes st children
          else some st))
    else if tag = "compounddef" ∨ tag = "memberdef" ∨ tag = "xrefsect" ∨
            tag = "argsstring" ∨ tag = "doxygenindex" then
      none
    else parseNodes st children

/-- generic_parse: visit every child in document order, threading the
state. -/
def parseNodes (st : ParseState) : List Node → Option ParseState
  | [] => some st
  | n :: rest => (parseNode st n).bind (fun st1 => parseNodes st1 rest)

end

/-! ### The overload-name generator -/

/-- str.replace for a single-character pattern: each occurrence of p becomes
the fragment r, scanning left to right. -/
def replaceChar (p : Char) (r : List Char) : List Char → List Char
  | [] => []
  | c :: cs => (if c = p then r else [c]) ++ replaceChar p r cs

/-- The chained replaces at the end of latexName, in source order: ':'
removed, '~' to tld, '_' to us, '0' to o, '1' to l, '2' to z. -/
def latexSanitizeData (s : List Char) : List Char :=
  replaceChar '2' ['z']
    (replaceChar '1' ['l']
      (replaceChar '0' ['o']
        (replaceChar '_' ['u', 's']
          (replaceChar '~' ['t', 'l', 'd']
            (replaceChar ':' [] s)))))

/-- The sanitization on strings. -/
def latexSanitize (s : String) : String :=
  String.mk (latexSanitizeData s.data)

/-- The suffix candidates tried by latexName: the empty suffix, then
chr(97) .. chr(121), i.e. the letters a through y — the source's
range(ord('a'), ord('z')) stops before 'z', so there are 26 candidates. -/
def latexSuffixes : List String :=
  "" :: (List.range' 97 25).map (fun n => String.singleton (Char.ofNat n))

/-- latexName: try the candidates name + suffix in order and take the first
one not yet in the session's uniqueName list, record the unsanitized
candidate in that list, and return the sanitized candidate together with
the updated list.  When every candidate is taken the source prints a message
and calls sys.exit(0); that exit is modelled as Except.error 0, the error
payload being the exit status. -/
def latexName (uniqueName : List String) (name : String) :
    Except Nat (String × List String) :=
  match latexSuffixes.find? (fun suffix => !(uniqueName.contains (name ++ suffix))) with
  | some suffix =>
    Except.ok (latexSanitize (name ++ suffix), uniqueName ++ [name ++ suffix])
  | none => Except.error 0

/-- n successive latexName calls with the same base name within one
rendering session, threading the uniqueName list; returns the sanitized
results in call order together with the final list. -/
def latexNameCalls (name : String) : Nat → List String → Except Nat (List String × List String)
  | 0, st => Except.ok ([], st)
  | n + 1, st =>
    (latexName st name).bind (fun p =>
      (latexNameCalls name n p.2).bind (fun q => Except.ok (p.1 :: q.1, q.2)))

/-- The first j candidates for a base name, as a uniqueName list. -/
def issuedUpTo (name : String) (j : Nat) : List String :=
  (latexSuffixes.take j).map (fun s => name ++ s)

/-! ### The memberdef Usage fragment -/

/-- Python str.split(sep) for a single-character separator: split at every
occurrence, keeping empty pieces. -/
def pySplitChar (sep : Char) : List Char → List (List Char)
  | [] => [[]]
  | c :: cs =>
    if c = sep then [] :: pySplitChar sep cs
    else
      match pySplitChar sep cs with
      | [] => [[c]]
      | h :: t => (c :: h) :: t

/-- Python str.split(sep) for a two-character separator, matching
non-overlapping occurrences left to right. -/
def pySplit2 (a b : Char) : List Char → List (List Char)
  | [] => [[]]
  | [c] => [[c]]
  | c :: d :: cs =>
    if c = a ∧ d = b then [] :: pySplit2 a b cs
    else
      match pySplit2 a b (d :: cs) with
      | [] => [[c]]
      | h :: t => (c :: h) :: t

/-- x.split(sep)[-1] for a single-character separator (split never returns
an empty list, so the [-1] index is safe). -/
def pySplitLast (sep : Char) (s : String) : String :=
  String.mk ((pySplitChar sep s.data).getLastD [])

/-- x.split('::')[-1]. -/
def pySplit2Last (a b : Char) (s : String) : String :=
  String.mk ((pySplit2 a b s.data).getLastD [])

/-- textwrap's line breaking for text that contains no whitespace: such text
is a single word, and with width 70 and break_long_words left at its default
the wrapper emits it in chunks of exactly 70 characters (the last chunk
shorter), or as a single line when it fits.  The accumulator holds the
current chunk reversed, n the remaining capacity of that chunk. -/
def chunk70Aux : List Char → List Char → Nat → List (List Char)
  | [], acc, _ => if acc = [] then [] else [acc.reverse]
  | c :: cs, acc, n =>
    if n = 0 then acc.reverse :: chunk70Aux cs [c] 69
    else chunk70Aux cs (c :: acc) (n - 1)

/-- The join of the wrapped lines with the newline separator. -/
def joinNl : List (List Char) → List Char
  | [] => []
  | [x] => x
  | x :: y :: xs => x ++ '\n' :: joinNl (y :: xs)

/-- format_text(text, 0, 0) for text without whitespace characters:
text.lstrip('\n '), wrapped at the 70-column width (a whitespace-free text
is one word, which textwrap emits in 70-character chunks), the lines joined
with newlines and lstripped, then each backslash quadrupled and each double
quote escaped, in that order, exactly as the source does.  The model is
faithful on whitespace-free inputs of any length, which covers the
definition tokens the memberdef handler formats; textwrap's whitespace
munging on other inputs is outside the model. -/
def formatTextTok (text : String) : String :=
  String.mk
    (replaceChar '"' ['\\', '"']
      (replaceChar '\\' ['\\', '\\', '\\', '\\']
        ((joinNl (chunk70Aux (text.data.dropWhile (fun c => c = '\n' || c = ' ')) [] 70)).dropWhile
          pyIsSpace)))

/-- Models the entry creation and Usage initialization of do_memberdef
(source lines 240-288) for a public member: name and defn are the texts of
the name and definition children, cdefKind the kind attribute of the
enclosing compounddef, ns the text of the innernamespace lookup (or, for a
namespace compound, of its compoundname) when one was found, and cname the
enclosing class compoundname for class/struct compounds.  Returns the
appended entry and the new active field; none models the paths that append
no entry (operator names, and compound kinds outside the two branches).

* file/namespace with a namespace found: entry named ns::name of type
  global_function, Usage initialized to func_name.split(':')[-1];
* file/namespace without one: entry named name (a diagnostic is printed),
  Usage initialized to the last space-separated token of defn;
* class/struct: entry named cname::name, a constructor iff
  cname.split('::')[-1] equals name; Usage starts empty, then the last
  space-separated token of defn is formatted and appended, prefixed with
  x. unless that token equals cname.split(':')[-1]. -/
def memberdefEntry (cdefKind : String) (ns : Option String) (cname : String)
    (name defn : String) : Option (DocEntry × String) :=
  if name.data.take 8 = "operator".data then none
  else if cdefKind = "file" ∨ cdefKind = "namespace" then
    match ns with
    | some nsval =>
      let funcName := nsval ++ "::" ++ name
      some ({ Name := funcName, type := some "global_function",
              Usage := some (pySplitLast ':' funcName) }, "Usage")
    | none =>
      some ({ Name := name, Usage := some (pySplitLast ' ' defn) }, "Usage")
  else if cdefKind = "class" ∨ cdefKind = "struct" then
    let classname := pySplit2Last ':' ':' cname
    let entryType :=
      if classname = name then "constructorofclass_" ++ cname
      else "memberofclass_" ++ cname
    let defName := pySplitLast ' ' defn
    let usage :=
      if defName = pySplitLast ':' cname then formatTextTok defName
      else "x." ++ formatTextTok defName
    some ({ Name := cname ++ "::" ++ name, type := some entryType,
            Usage := some usage }, "Usage")
  else none

/-! ### The sort is a no-op -/

theorem pyNameCmp_nonneg (x y : DocEntry) : 0 ≤ pyNameCmp x y := by
  unfold pyNameCmp
  split <;> decide

theorem pairwise_of_rel_true {α : Type} {R : α → α → Prop}
    (h : ∀ a b, R a b) : ∀ l : List α, l.Pairwise R := by
  intro l
  induction l with
  | nil => exact List.Pairwise.nil
  | cons x xs ih => exact List.Pairwise.cons (fun b _ => h x b) ih

theorem pySortByCmp_pyNameCmp_eq_self (l : List DocEntry) :
    pySortByCmp pyNameCmp l = l := by
  unfold pySortByCmp
  apply List.mergeSort_of_sorted
  apply pairwise_of_rel_true
  intro a b
  have h := pyNameCmp_nonneg b a
  simp only [Bool.not_eq_true']
  simp only [decide_eq_false_iff_not]
  omega

theorem postProcess_eq (content : List DocEntry) :
    postProcess content =
      (let c3 := ((dedup content).map fillEmptyDesc).map markIgnore
       if c3.any (fun e => (e.ignore == some true) && pyInStr "~" e.Name) then
         Except.error 1
       else
         Except.ok c3) := by
  unfold postProcess
  simp only [pySortByCmp_pyNameCmp_eq_self]

/-! ### Overload-name generator lemmas -/

theorem find?_congrOn {α : Type} {p q : α → Bool} :
    ∀ l : List α, (∀ x ∈ l, p x = q x) → l.find? p = l.find? q := by
  intro l
  induction l with
  | nil => intro _; rfl
  | cons x xs ih =>
    intro h
    rw [List.find?_cons, List.find?_cons, h x (List.mem_cons_self x xs)]
    cases hq : q x with
    | true => rfl
    | false => exact ih (fun y hy => h y (List.mem_cons_of_mem x hy))

theorem find?_first_fresh {α : Type} [BEq α] [LawfulBEq α] :
    ∀ (l : List α) (j : Nat) (hj : j < l.length), l.Nodup →
      l.find? (fun x => !(l.take j).contains x) = some l[j] := by
  intro l j
  induction j generalizing l with
  | zero =>
    intro hj hnd
    cases l with
    | nil => simp at hj
    | cons a as =>
      rw [List.take_zero]
      rw [List.find?_cons_of_pos _ (by simp)]
      rfl
  | succ j ih =>
    intro hj hnd
    cases l with
    | nil => simp at hj
    | cons a as =>
      rw [List.take_succ_cons]
      rw [List.find?_cons_of_neg _ (by simp)]
      have hnd' := List.nodup_cons.mp hnd
      have hcongr :
          as.find? (fun x => !((a :: as.take j).contains x)) =
          as.find? (fun x => !(as.take j).contains x) := by
        apply find?_congrOn
        intro x hx
        have hxa : (x == a) = false := by
          simp only [beq_eq_false_iff_ne]
          intro he
          exact hnd'.1 (he ▸ hx)
        simp [List.contains_cons, hxa]
      rw [hcongr]
      rw [ih as (by simpa using hj) hnd'.2]
      rfl

theorem string_data_inj {a b : String} (h : a.data = b.data) : a = b := by
  cases a
  cases b
  exact congrArg String.mk h

theorem string_append_cancel_left {a b c : String} (h : a ++ b = a ++ c) : b = c := by
  have hd : a.data ++ b.data = a.data ++ c.data := by
    have := congrArg String.data h
    simpa using this
  exact string_data_inj (List.append_cancel_left hd)

theorem contains_map_append (name : String) (l : List String) (s : String) :
    (l.map (fun t => name ++ t)).contains (name ++ s) = l.contains s := by
  induction l with
  | nil => rfl
  | cons x xs ih =>
    simp only [List.map_cons, List.contains_cons, ih]
    by_cases hsx : s = x
    · subst hsx
      simp
    · have h1 : (name ++ s == name ++ x) = false := by
        simp only [beq_eq_false_iff_ne]
        intro he
        exact hsx (string_append_cancel_left he)
      have h2 : (s == x) = false := by
        simp only [beq_eq_false_iff_ne]
        exact hsx
      rw [h1, h2]

theorem latexSuffixes_length : latexSuffixes.length = 26 := by decide

theorem latexSuffixes_nodup : latexSuffixes.Nodup := by decide

theorem latexName_at_step (name : String) (j : Nat) (hjl : j < latexSuffixes.length) :
    latexName (issuedUpTo name j) name =
      Except.ok (latexSanitize (name ++ latexSuffixes[j]),
                 issuedUpTo name (j + 1)) := by
  unfold latexName issuedUpTo
  have hcongr :
      latexSuffixes.find?
        (fun suffix => !(((latexSuffixes.take j).map (fun s => name ++ s)).contains (name ++ suffix))) =
      latexSuffixes.find? (fun suffix => !((latexSuffixes.take j).contains suffix)) := by
    apply find?_congrOn
    intro x _
    rw [contains_map_append]
  rw [hcongr]
  rw [find?_first_fresh latexSuffixes j hjl latexSuffixes_nodup]
  simp only []
  have h1 : latexSuffixes.take (j + 1) =
      latexSuffixes.take j ++ [latexSuffixes[j]] := by
    rw [List.take_succ, List.getElem?_eq_getElem hjl]
    simp
  rw [h1, List.map_append]
  rfl

theorem except_bind_ok {eps alpha beta : Type} (a : alpha) (f : alpha → Except eps beta) :
    (Except.ok (ε := eps) a).bind f = f a := rfl

theorem latexNameCalls_from (name : String) :
    ∀ (n j : Nat), j + n ≤ 26 →
      latexNameCalls name n (issuedUpTo name j) =
        Except.ok (((latexSuffixes.drop j).take n).map (fun s => latexSanitize (name ++ s)),
                   issuedUpTo name (j + n)) := by
  intro n
  induction n with
  | zero =>
    intro j hj
    simp [latexNameCalls]
  | succ n ih =>
    intro j hj
    have hjl : j < latexSuffixes.length := by rw [latexSuffixes_length]; omega
    rw [latexNameCalls]
    rw [latexName_at_step name j hjl]
    rw [except_bind_ok]
    simp only []
    rw [ih (j + 1) (by omega)]
    rw [except_bind_ok]
    simp only []
    have hdrop : latexSuffixes.drop j = latexSuffixes[j] :: latexSuffixes.drop (j + 1) :=
      List.drop_eq_getElem_cons hjl
    rw [hdrop]
    rw [List.take_succ_cons, List.map_cons]
    have hadd : j + 1 + n = j + (n + 1) := by omega
    rw [hadd]

theorem replaceChar_append (p : Char) (r : List Char) :
    ∀ xs ys, replaceChar p r (xs ++ ys) = replaceChar p r xs ++ replaceChar p r ys := by
  intro xs ys
  induction xs with
  | nil => rfl
  | cons c cs ih =>
    rw [List.cons_append, replaceChar, replaceChar, ih, List.append_assoc]

theorem latexSanitizeData_append (xs ys : List Char) :
    latexSanitizeData (xs ++ ys) = latexSanitizeData xs ++ latexSanitizeData ys := by
  unfold latexSanitizeData
  rw [replaceChar_append, replaceChar_append, replaceChar_append, replaceChar_append,
      replaceChar_append, replaceChar_append]

theorem latexSuffixes_sanitize_fixed :
    ∀ s ∈ latexSuffixes, latexSanitizeData s.data = s.data := by
  decide

theorem latexSanitize_append_suffix (name : String) {s : String}
    (hs : s ∈ latexSuffixes) :
    latexSanitize (name ++ s) = String.mk (latexSanitizeData name.data ++ s.data) := by
  unfold latexSanitize
  rw [String.data_append]
  rw [latexSanitizeData_append]
  rw [latexSuffixes_sanitize_fixed s hs]

/-! ### Split and format lemmas -/

theorem pySplitChar_ne_nil (sep : Char) : ∀ l, pySplitChar sep l ≠ [] := by
  intro l
  induction l with
  | nil => simp [pySplitChar]
  | cons c cs ih =>
    rw [pySplitChar]
    split
    · simp
    · split <;> simp

theorem pySplitChar_no_sep (sep : Char) :
    ∀ l, sep ∉ l → pySplitChar sep l = [l] := by
  intro l
  induction l with
  | nil => intro _; rfl
  | cons c cs ih =>
    intro h
    have hc : ¬ (c = sep) := by
      intro he
      subst he
      exact h (List.mem_cons_self c cs)
    have hcs : sep ∉ cs := fun hm => h (List.mem_cons_of_mem c hm)
    rw [pySplitChar, if_neg hc, ih hcs]

theorem getLastD_irrel {α : Type} (l : List α) (h : l ≠ []) (d1 d2 : α) :
    l.getLastD d1 = l.getLastD d2 := by
  cases l with
  | nil => exact absurd rfl h
  | cons x xs => rw [List.getLastD_cons, List.getLastD_cons]

theorem pySplitChar_length_ge_two (sep : Char) :
    ∀ l, sep ∈ l → 2 ≤ (pySplitChar sep l).length := by
  intro l
  induction l with
  | nil => intro h; simp at h
  | cons c cs ih =>
    intro h
    by_cases hc : c = sep
    · rw [pySplitChar, if_pos hc]
      cases hsp : pySplitChar sep cs with
      | nil => exact absurd hsp (pySplitChar_ne_nil sep cs)
      | cons a b =>
        simp only [List.length_cons]
        omega
    · have hcs : sep ∈ cs := by
        rcases List.mem_cons.mp h with h1 | h2
        · exact absurd h1.symm hc
        · exact h2
      rw [pySplitChar, if_neg hc]
      have h2 := ih hcs
      cases hsp : pySplitChar sep cs with
      | nil => exact absurd hsp (pySplitChar_ne_nil sep cs)
      | cons hh tt =>
        rw [hsp] at h2
        simp only [List.length_cons] at h2 ⊢
        omega

theorem getLastD_split_append (sep : Char) :
    ∀ xs ys, (pySplitChar sep (xs ++ sep :: ys)).getLastD [] =
             (pySplitChar sep ys).getLastD [] := by
  intro xs
  induction xs with
  | nil =>
    intro ys
    rw [List.nil_append, pySplitChar, if_pos rfl, List.getLastD_cons]
  | cons x xs ih =>
    intro ys
    rw [List.cons_append]
    by_cases hx : x = sep
    · rw [pySplitChar, if_pos hx, List.getLastD_cons]
      rw [getLastD_irrel _ (pySplitChar_ne_nil sep (xs ++ sep :: ys)) [] []]
      exact ih ys
    · rw [pySplitChar, if_neg hx]
      have hlen := pySplitChar_length_ge_two sep (xs ++ sep :: ys) (by simp)
      have ih2 := ih ys
      cases hsp : pySplitChar sep (xs ++ sep :: ys) with
      | nil => exact absurd hsp (pySplitChar_ne_nil sep (xs ++ sep :: ys))
      | cons hh tt =>
        rw [hsp] at hlen ih2
        have htt : tt ≠ [] := by
          intro he
          rw [he] at hlen
          simp at hlen
        rw [List.getLastD_cons] at ih2 ⊢
        rw [getLastD_irrel tt htt (x :: hh) hh]
        exact ih2

theorem pySplitLast_qualified (nsval name : String) (h : ':' ∉ name.data) :
    pySplitLast ':' (nsval ++ "::" ++ name) = name := by
  unfold pySplitLast
  have hdata : (nsval ++ "::" ++ name).data = (nsval.data ++ [':']) ++ ':' :: name.data := by
    simp only [String.data_append]
    simp [List.append_assoc]
  rw [hdata, getLastD_split_append, pySplitChar_no_sep ':' name.data h]
  rfl

theorem pySplitChar_parts_no_sep (sep : Char) :
    ∀ l part, part ∈ pySplitChar sep l → sep ∉ part := by
  intro l
  induction l with
  | nil =>
    intro part h
    simp [pySplitChar] at h
    subst h
    simp
  | cons c cs ih =>
    intro part h
    by_cases hc : c = sep
    · rw [pySplitChar, if_pos hc] at h
      rcases List.mem_cons.mp h with h1 | h2
      · subst h1; simp
      · exact ih part h2
    · rw [pySplitChar, if_neg hc] at h
      cases hsp : pySplitChar sep cs with
      | nil => exact absurd hsp (pySplitChar_ne_nil sep cs)
      | cons hh tt =>
        rw [hsp] at h
        rcases List.mem_cons.mp h with h1 | h2
        · subst h1
          intro hm
          rcases List.mem_cons.mp hm with h3 | h4
          · exact hc h3.symm
          · exact ih hh (by rw [hsp]; exact List.mem_cons_self hh tt) h4
        · exact ih part (by rw [hsp]; exact List.mem_cons_of_mem hh h2)

theorem getLastD_mem {α : Type} : ∀ (l : List α) (d : α), l ≠ [] → l.getLastD d ∈ l := by
  intro l
  induction l with
  | nil => intro d h; exact absurd rfl h
  | cons x xs ih =>
    intro d _
    rw [List.getLastD_cons]
    cases hx : xs with
    | nil => simp
    | cons y ys =>
      have h2 := ih x (by simp [hx])
      rw [hx] at h2
      exact List.mem_cons_of_mem x h2

theorem dropWhile_eq_self_of_none {α : Type} (p : α → Bool) (l : List α)
    (h : ∀ c ∈ l, p c = false) : l.dropWhile p = l := by
  cases l with
  | nil => rfl
  | cons x xs =>
    rw [List.dropWhile_cons, h x (List.mem_cons_self x xs)]
    simp

theorem replaceChar_eq_self (p : Char) (r : List Char) :
    ∀ l, p ∉ l → replaceChar p r l = l := by
  intro l
  induction l with
  | nil => intro _; rfl
  | cons c cs ih =>
    intro h
    have hc : ¬ (c = p) := by
      intro he
      subst he
      exact h (List.mem_cons_self c cs)
    have hcs : p ∉ cs := fun hm => h (List.mem_cons_of_mem c hm)
    rw [replaceChar, if_neg hc, ih hcs]
    rfl

theorem chunk70Aux_single :
    ∀ (l acc : List Char) (n : Nat), l.length ≤ n → (acc ≠ [] ∨ l ≠ []) →
      chunk70Aux l acc n = [acc.reverse ++ l] := by
  intro l
  induction l with
  | nil =>
    intro acc n _ hne
    have hacc : ¬ (acc = []) := by
      rcases hne with h | h
      · exact h
      · exact absurd rfl h
    rw [chunk70Aux, if_neg hacc]
    simp
  | cons c cs ih =>
    intro acc n hlen hne
    have hn : ¬ (n = 0) := by
      simp only [List.length_cons] at hlen
      omega
    rw [chunk70Aux, if_neg hn]
    rw [ih (c :: acc) (n - 1)
          (by simp only [List.length_cons] at hlen; omega)
          (Or.inl (by simp))]
    simp

theorem formatTextTok_eq_self (t : String)
    (hws : ∀ c ∈ t.data, pyIsSpace c = false)
    (hlen : t.data.length ≤ 70)
    (hbs : '\\' ∉ t.data) (hq : '"' ∉ t.data) :
    formatTextTok t = t := by
  have hall : ∀ c ∈ t.data, (fun c => c = '\n' || c = ' ' : Char → Bool) c = false := by
    intro c hc
    have hs : ¬ (c = ' ') := by
      intro he
      subst he
      have h2 := hws ' ' hc
      simp [pyIsSpace] at h2
    have hn : ¬ (c = '\n') := by
      intro he
      subst he
      have h2 := hws '\n' hc
      simp [pyIsSpace] at h2
    simp [hs, hn]
  unfold formatTextTok
  rw [dropWhile_eq_self_of_none _ t.data hall]
  cases ht : t.data with
  | nil =>
    apply string_data_inj
    rw [ht]
    rfl
  | cons c cs =>
    rw [chunk70Aux_single (c :: cs) [] 70 (by rw [← ht]; exact hlen) (Or.inr (by simp))]
    rw [List.reverse_nil, List.nil_append]
    simp only [joinNl]
    rw [dropWhile_eq_self_of_none pyIsSpace (c :: cs) (ht ▸ hws)]
    rw [replaceChar_eq_self '\\' _ (c :: cs) (ht ▸ hbs)]
    rw [replaceChar_eq_self '"' _ (c :: cs) (ht ▸ hq)]
    apply string_data_inj
    rw [ht]

/-! ### Deduplication lemmas -/

theorem dedupAux_hash_not_mem (l : List DocEntry) :
    ∀ (seen : List String), ∀ e ∈ dedupAux seen l, myhash e ∉ seen := by
  induction l with
  | nil =>
    intro seen e he
    simp [dedupAux] at he
  | cons x rest ih =>
    intro seen e he
    by_cases hx : myhash x ∈ seen
    · rw [dedupAux, if_pos hx] at he
      exact ih seen e he
    · rw [dedupAux, if_neg hx] at he
      rcases List.mem_cons.mp he with h1 | h2
      · rw [h1]; exact hx
      · intro hm
        exact ih (seen ++ [myhash x]) e h2 (List.mem_append_left _ hm)

theorem dedupAux_hash_nodup (l : List DocEntry) :
    ∀ (seen : List String), ((dedupAux seen l).map myhash).Nodup := by
  induction l with
  | nil =>
    intro seen
    simp [dedupAux]
  | cons x rest ih =>
    intro seen
    by_cases hx : myhash x ∈ seen
    · rw [dedupAux, if_pos hx]
      exact ih seen
    · rw [dedupAux, if_neg hx]
      simp only [List.map_cons, List.nodup_cons]
      constructor
      · intro hmem
        rcases List.mem_map.mp hmem with ⟨e, he, heq⟩
        apply dedupAux_hash_not_mem rest (seen ++ [myhash x]) e he
        rw [heq]
        exact List.mem_append_right _ (List.mem_singleton.mpr rfl)
      · exact ih (seen ++ [myhash x])

theorem dedupAux_eq_self (l : List DocEntry) :
    ∀ (seen : List String), ((l.map myhash).Nodup) →
      (∀ e ∈ l, myhash e ∉ seen) → dedupAux seen l = l := by
  induction l with
  | nil => intro seen _ _; rfl
  | cons x rest ih =>
    intro seen hnd hs
    have hx : myhash x ∉ seen := hs x (List.mem_cons_self x rest)
    rw [dedupAux, if_neg hx]
    rw [List.map_cons] at hnd
    have hnd' := List.nodup_cons.mp hnd
    congr 1
    apply ih (seen ++ [myhash x]) hnd'.2
    intro e he hmem
    rcases List.mem_append.mp hmem with h1 | h2
    · exact hs e (List.mem_cons_of_mem x he) h1
    · have heq : myhash e = myhash x := by simpa using h2
      exact hnd'.1 (heq ▸ List.mem_map_of_mem myhash he)

/-! ### Claim theorems -/

/-- Claim C2 (confirmed): applying the deduplication step twice in sequence
yields the same list as applying it once — the output of dedup has
pairwise-distinct identity keys (Name + Description + Details, absent
fields as empty string), and dedup is the identity on such a list. -/
theorem c2_dedup_idempotent (l : List DocEntry) : dedup (dedup l) = dedup l := by
  unfold dedup
  apply dedupAux_eq_self
  · exact dedupAux_hash_nodup l []
  · intro e _ h
    simp at h

/-- Claim C1 (code bug): an entry whose Name contains the destructor marker
and whose Description contains CPPONLY does not make the run abort when its
Details is a nonempty text without the marker: the empty-description step
overwrites Description with Name first (the not in its condition binds only
the first conjunct), the marker is lost, ignore stays false, post_process
returns normally, and all three outputs are then written. -/
theorem c1_destructor_check_bypassed :
    pyInStr "~" "~shuffler" = true ∧
    pyInStr "CPPONLY" "CPPONLY, do not wrap" = true ∧
    okVal? (postProcess [{ Name := "~shuffler",
                           Description := some "CPPONLY, do not wrap",
                           Details := some "frees internal buffers" }]) =
      some [{ Name := "~shuffler",
              Description := some "~shuffler",
              Details := some "frees internal buffers",
              ignore := some false }] := by
  refine ⟨by decide, by decide, ?_⟩
  rw [postProcess_eq]
  decide

/-- Claim C3 (code bug): an entry with a nonempty Description and a nonempty
Details does not keep its Description — the empty-description condition is
true for every entry with nonempty Details because the not binds only the
first parenthesized conjunct, so Description is overwritten with Name. -/
theorem c3_description_clobbered :
    okVal? (postProcess [{ Name := "simuPOP::tester",
                           Description := some "short summary",
                           Details := some "long details" }]) =
      some [{ Name := "simuPOP::tester",
              Description := some "simuPOP::tester",
              Details := some "long details",
              ignore := some false }] ∧
    ("simuPOP::tester" : String) ≠ "short summary" := by
  refine ⟨?_, by decide⟩
  rw [postProcess_eq]
  decide

/-- Claim C4, counterexample: 27 calls with the same base name do not yield
27 identifiers — the suffix list has only 26 candidates (the bare name and
letters a through y, since range(ord('a'), ord('z')) excludes 'z'), so the
27th call finds no fresh candidate and the run aborts. -/
theorem c4_27_calls_abort :
    errCode? (latexNameCalls "f" 27 []) = some 0 := by
  decide

/-- Claim C4 amended (corrected): for every N up to 26, N successive calls
to the overload-name generator with the same base qualified name within one
rendering session return N pairwise-distinct sanitized identifiers — the
bare name first, then single-letter suffixes from a through y in order,
taking the first candidate not already issued. -/
theorem c4_overload_names_distinct (name : String) (N : Nat) (h : N ≤ 26) :
    ∃ outs st, latexNameCalls name N [] = Except.ok (outs, st) ∧
      outs.length = N ∧ outs.Nodup := by
  have hc := latexNameCalls_from name N 0 (by omega)
  rw [(rfl : issuedUpTo name 0 = []), List.drop_zero] at hc
  refine ⟨_, _, hc, ?_, ?_⟩
  · rw [List.length_map, List.length_take, latexSuffixes_length]
    omega
  · apply List.Nodup.map_on
    · intro s1 h1 s2 h2 heq
      have hs1 : s1 ∈ latexSuffixes := List.mem_of_mem_take h1
      have hs2 : s2 ∈ latexSuffixes := List.mem_of_mem_take h2
      rw [latexSanitize_append_suffix name hs1, latexSanitize_append_suffix name hs2] at heq
      have hdata : latexSanitizeData name.data ++ s1.data =
          latexSanitizeData name.data ++ s2.data := congrArg String.data heq
      exact string_data_inj (List.append_cancel_left hdata)
    · exact latexSuffixes_nodup.sublist (List.take_sublist N latexSuffixes)

theorem c4_overload_names_distinct_witness :
    3 ≤ 26 ∧
    (∃ outs st, latexNameCalls "f" 3 [] = Except.ok (outs, st) ∧
       outs.length = 3 ∧ outs.Nodup) :=
  ⟨by decide, c4_overload_names_distinct "f" 3 (by decide)⟩

/-- Claim C5 (code bug): exhausting every overload-name candidate does not
abort with a non-zero exit status — the source calls sys.exit(0), so the
modelled exit status on the exhaustion path is 0. -/
theorem c5_exhaustion_exits_with_zero :
    errCode? (latexName (latexSuffixes.map (fun s => "g" ++ s)) "g") = some 0 := by
  decide

/-- Claim C7 (code bug): a simple-section of kind date is recursed and its
text contributes to the active field — the suppression branch for date, rcs
and version is a bare pass that falls through to the generic visit, so the
text child "2007-04-01" below is appended to the entry's Description. -/
theorem c7_date_section_recursed :
    parseNode { content := [{ Name := "cls", Description := some "" }],
                curField := "Description" }
        (Node.elem "simplesect" [("kind", "date")] [Node.text "2007-04-01"]) =
      some { content := [{ Name := "cls", Description := some "2007-04-01",
                           Details := some "" }],
             curField := "Details" } ∧
    some "2007-04-01" ≠ (some "" : Option String) := by
  exact ⟨by decide, by decide⟩

/-- Claim C8 (code bug): after post-processing the entry list is not sorted
by Name — the cmp lambda returns the boolean of the > comparison, which as a
Python 2 cmp value is 1 or 0 and never negative, so the sort reorders
nothing and the descending input order zebra, apple survives. -/
theorem c8_sort_leaves_list_unsorted :
    okVal? (postProcess [{ Name := "zebra", Description := some "z doc" },
                         { Name := "apple", Description := some "a doc" }]) =
      some [{ Name := "zebra", Description := some "z doc", ignore := some false },
            { Name := "apple", Description := some "a doc", ignore := some false }] ∧
    ("apple" : String) < "zebra" := by
  refine ⟨?_, ?_⟩
  · rw [postProcess_eq]
    decide
  · exact String.lt_iff_toList_lt.mpr (by decide)

/-- Claim C10 (confirmed): non-whitespace text cannot be appended without a
current entry — add_text indexes self.content[-1], and with the Arguments
cursor also the last element of the Arguments list, so text arriving before
any entry (or before any parameter-name once Arguments is active) raises
instead of being silently dropped, modelled as a none result. -/
theorem c10_text_requires_entry (st : ParseState) (txt : String)
    (hw : pySpaceOnly txt = false)
    (h : st.content = [] ∨
         (st.curField = "Arguments" ∧
          ∃ e, st.content.getLast? = some e ∧ e.Arguments = some [])) :
    parseText st txt = none := by
  unfold parseText
  rw [hw]
  simp only [Bool.false_eq_true, if_false]
  unfold addText
  rcases h with h | ⟨hf, e, he, ha⟩
  · rw [h]
    rfl
  · simp only [he, hf, ha]
    rfl

/-- Claim C6, counterexample: the claim's preservation part is false — a
simple-section handler run while the entry's Details holds "previous text"
leaves Details equal to the empty string, because the handler ends with
content[-1]['Details'] = '' after resetting the cursor. -/
theorem c6_details_not_preserved :
    parseNode { content := [{ Name := "cls", Details := some "previous text" }],
                curField := "Details" }
        (Node.elem "simplesect" [("kind", "note")] []) =
      some { content := [{ Name := "cls", Details := some "", note := some "" }],
             curField := "Details" } ∧
    (some "" : Option String) ≠ some "previous text" := by
  exact ⟨by decide, by decide⟩

/-- Claim C6 amended (corrected): after any simple-section handler run that
returns normally, the active field is Details and the last entry's Details
is re-initialized to the empty string — previously accumulated Details text
is discarded, so subsequent sibling text starts a fresh Details value
instead of extending the old one. -/
theorem c6_simplesect_resets_details (st st1 : ParseState)
    (attrs : List (String × String)) (children : List Node)
    (h : parseNode st (Node.elem "simplesect" attrs children) = some st1) :
    st1.curField = "Details" ∧
    ∃ e, st1.content.getLast? = some e ∧ e.Details = some "" := by
  rw [parseNode] at h
  rw [if_neg (by decide : ¬ (("simplesect" : String) ∈ ignoreTags))] at h
  rw [if_neg (by decide : ¬ (("simplesect" : String) ∈ spaceParseTags))] at h
  rw [if_neg (by decide : ¬ (("simplesect" : String) = "compoundname"))] at h
  rw [if_neg (by decide : ¬ (("simplesect" : String) = "parameterlist"))] at h
  rw [if_neg (by decide : ¬ (("simplesect" : String) = "para"))] at h
  rw [if_neg (by decide : ¬ (("simplesect" : String) = "parametername"))] at h
  rw [if_neg (by decide : ¬ (("simplesect" : String) = "detaileddescription"))] at h
  rw [if_neg (by decide : ¬ (("simplesect" : String) = "briefdescription"))] at h
  rw [if_pos (rfl : ("simplesect" : String) = "simplesect")] at h
  rcases Option.bind_eq_some.mp h with ⟨kind, hk, h2⟩
  rcases Option.bind_eq_some.mp h2 with ⟨st2, hb, h3⟩
  rcases Option.bind_eq_some.mp h3 with ⟨e2, hl, h4⟩
  have h5 := Option.some.inj h4
  rw [← h5]
  refine ⟨rfl, ?_⟩
  refine ⟨{ e2 with Details := some "" }, ?_, rfl⟩
  simp [List.getLast?_concat]

theorem c6_simplesect_resets_details_witness :
    parseNode { content := [{ Name := "pop", Details := some "old details" }],
                curField := "Details" }
        (Node.elem "simplesect" [("kind", "warning")] []) =
      some { content := [{ Name := "pop", Details := some "", warning := some "" }],
             curField := "Details" } ∧
    ({ content := [{ Name := "pop", Details := some "", warning := some "" }],
       curField := "Details" } : ParseState).curField = "Details" ∧
    (∃ e, ({ content := [{ Name := "pop", Details := some "", warning := some "" }],
             curField := "Details" } : ParseState).content.getLast? = some e ∧
          e.Details = some "") :=
  ⟨by decide,
   c6_simplesect_resets_details
     { content := [{ Name := "pop", Details := some "old details" }], curField := "Details" }
     { content := [{ Name := "pop", Details := some "", warning := some "" }],
       curField := "Details" }
     [("kind", "warning")] [] (by decide)⟩

theorem c10_text_requires_entry_witness :
    pySpaceOnly "hello" = false ∧
    parseText { content := [], curField := "" } "hello" = none :=
  ⟨by decide, c10_text_requires_entry { content := [], curField := "" } "hello"
      (by decide) (Or.inl rfl)⟩

/-- Claim C9, counterexample: both rendering conjuncts of the claim fail on
the code.  A public function inside a namespace compound gets Usage
initialized to the unqualified name, not to the namespace-qualified
rendering — func_name.split(':')[-1] keeps only the segment after the last
colon; and an ordinary class member gets Usage initialized to x. followed by
the definition text's last space-separated token (here the fully qualified
name), not x.<name>. -/
theorem c9_usage_rendering_counterexample :
    (memberdefEntry "namespace" (some "simuPOP") "" "initSex" "void simuPOP::initSex" =
       some ({ Name := "simuPOP::initSex", type := some "global_function",
               Usage := some "initSex" }, "Usage") ∧
     (some "initSex" : Option String) ≠ some ("simuPOP" ++ "::" ++ "initSex")) ∧
    (memberdefEntry "class" none "simuPOP::population" "grow"
        "void simuPOP::population::grow" =
       some ({ Name := "simuPOP::population" ++ "::" ++ "grow",
               type := some "memberofclass_simuPOP::population",
               Usage := some "x.simuPOP::population::grow" }, "Usage") ∧
     (some "x.simuPOP::population::grow" : Option String) ≠ some ("x." ++ "grow")) := by
  exact ⟨⟨by decide, by decide⟩, ⟨by decide, by decide⟩⟩

/-- Claim C9 amended (corrected): for a public non-operator member, the
created entry's Usage is initialized to the unqualified name (the segment of
the qualified name after the last ':') for functions in file/namespace
compounds with an enclosing namespace; in class/struct compounds, Usage is
initialized to the definition's last space-separated token, prefixed with
x. unless that token equals the class name's last ':'-segment (the
constructor rendering), and the entry is typed a constructor iff the class
name's last '::'-segment equals the member name.  The hypotheses restrict
the definition token to ones the 70-column wrap formatter passes through
unchanged: whitespace-free, at most 70 characters, and free of the escaped
backslash and quote characters — which holds for identifier tokens; longer
tokens are emitted wrapped. -/
theorem c9_usage_initialization (cdefKind nsval cname name defn : String) (ns : Option String)
    (hop : ¬ name.data.take 8 = "operator".data)
    (hname : ':' ∉ name.data)
    (hws : ∀ c ∈ (pySplitLast ' ' defn).data, pyIsSpace c = false)
    (hlen : (pySplitLast ' ' defn).data.length ≤ 70)
    (hbs : '\\' ∉ (pySplitLast ' ' defn).data)
    (hq : '"' ∉ (pySplitLast ' ' defn).data) :
    ((cdefKind = "file" ∨ cdefKind = "namespace") →
      memberdefEntry cdefKind (some nsval) cname name defn =
        some ({ Name := nsval ++ "::" ++ name, type := some "global_function",
                Usage := some name }, "Usage")) ∧
    ((cdefKind = "class" ∨ cdefKind = "struct") →
      memberdefEntry cdefKind ns cname name defn =
        some ({ Name := cname ++ "::" ++ name,
                type := some (if pySplit2Last ':' ':' cname = name
                              then "constructorofclass_" ++ cname
                              else "memberofclass_" ++ cname),
                Usage := some (if pySplitLast ' ' defn = pySplitLast ':' cname
                               then pySplitLast ' ' defn
                               else "x." ++ pySplitLast ' ' defn) }, "Usage")) := by
  have hfmt := formatTextTok_eq_self (pySplitLast ' ' defn) hws hlen hbs hq
  constructor
  · intro hk
    unfold memberdefEntry
    rw [if_neg hop, if_pos hk]
    simp only [pySplitLast_qualified nsval name hname]
  · intro hk
    rcases hk with hk | hk <;> subst hk
    · unfold memberdefEntry
      rw [if_neg hop]
      rw [if_neg (by decide : ¬ (("class" : String) = "file" ∨ ("class" : String) = "namespace"))]
      rw [if_pos (Or.inl rfl : ("class" : String) = "class" ∨ ("class" : String) = "struct")]
      simp only [hfmt]
    · unfold memberdefEntry
      rw [if_neg hop]
      rw [if_neg (by decide : ¬ (("struct" : String) = "file" ∨ ("struct" : String) = "namespace"))]
      rw [if_pos (Or.inr rfl : ("struct" : String) = "class" ∨ ("struct" : String) = "struct")]
      simp only [hfmt]

theorem c9_usage_initialization_witness :
    ¬ ("getWeight".data.take 8 = "operator".data) ∧
    (':' : Char) ∉ "getWeight".data ∧
    memberdefEntry "namespace" (some "simuPOP") "" "getWeight" "double simuPOP::getWeight" =
      some ({ Name := "simuPOP" ++ "::" ++ "getWeight", type := some "global_function",
              Usage := some "getWeight" }, "Usage") :=
  ⟨by decide, by decide,
   (c9_usage_initialization "namespace" "simuPOP" "" "getWeight"
      "double simuPOP::getWeight" none (by decide) (by decide) (by decide)
      (by decide) (by decide) (by decide)).1 (Or.inr rfl)⟩

end Doxy2swig
